import Mathlib

/-!
Verification of the two-phase middleware pipeline of the `contextual`
repository (packages `middleware` and `chain`), as a shallow embedding.

Side effects (writes to the `http.ResponseWriter`, calls observed by test
instrumentation) are modelled as an ordered list of `Event`s produced by each
call.  A Go `context.Context`, as far as the pipeline observes it, is a list
of key/value bindings (innermost first, as produced by `context.WithValue`)
together with the result of `Err()`.  Runtime panics (failed type assertions,
out-of-range slice indexing, a panicking handler) are modelled as a `Fault`.
-/

namespace Contextual

/-- Error values of golang.org/x/net/context relevant here:
`context.Canceled` and `context.DeadlineExceeded`; `none` models a nil
`Err()`. -/
inductive GoErr
  | canceled
  | deadlineExceeded
deriving DecidableEq

/-- Values storable under a context key (Go `interface{}` values as the
pipeline uses them): the pipeline itself stores only ints (the high-water
mark); user stages may store strings. -/
inductive Val
  | nat (n : Nat)
  | str (s : String)
deriving DecidableEq

/-- A `context.Context` as the pipeline observes it: the key/value bindings
(innermost binding first, as built by `context.WithValue`) and the result of
`Err()`. -/
structure Ctx where
  vals : List (String × Val)
  err : Option GoErr
deriving DecidableEq

/-- The empty root context, `context.Background()`. -/
def Ctx.background : Ctx := ⟨[], none⟩

/-- Derivation by `context.WithValue(ctx, k, v)`: one more binding, the
cancellation state of the parent is preserved. -/
def Ctx.withValue (c : Ctx) (k : String) (v : Val) : Ctx :=
  ⟨(k, v) :: c.vals, c.err⟩

/-- Lookup walking the derivation chain outward, as `context.Value` does:
the innermost binding for the key wins, nil when absent. -/
def lookupVal : List (String × Val) → String → Option Val
  | [], _ => none
  | p :: rest, k => if p.1 = k then some p.2 else lookupVal rest k

/-- The Go call `ctx.Value(k)`. -/
def Ctx.value (c : Ctx) (k : String) : Option Val :=
  lookupVal c.vals k

/-- Function `canceled` of package middleware:
`ctx.Err() == context.Canceled`. -/
def canceled (c : Ctx) : Bool :=
  match c.err with
  | some GoErr.canceled => true
  | _ => false

/-- Observable side effects of one request: bytes written to the
ResponseWriter or recorded by test instrumentation, plus markers for the
instrumented stages, the instrumented endpoint handler, and the delegation
performed by the package-level default handler. -/
inductive Event
  | write (s : String)
  | inbRan (i : Nat)
  | outRan (i : Nat)
  | handlerRan
  | serveDefault (r : Nat)
deriving DecidableEq

/-- A Go runtime panic (failed type assertion, slice index out of range, or a
panic raised inside the endpoint handler). -/
inductive Fault
  | crash
deriving DecidableEq

/-- Request metadata; the pipeline never inspects it, so an opaque identifier
suffices. -/
abbrev Req := Nat

/-- The result of running a handler or a composed pipeline on one request:
the side effects it performed, in order, and the propagating fault if it
panicked before returning. -/
structure Outcome where
  events : List Event
  fault : Option Fault
deriving DecidableEq

/-- A `contextual.Handler`: `Serve(ctx, w, r)` returns nothing; we observe
its side effects and whether it panicked. -/
def Handler := Ctx → Req → Outcome

/-- The package-level `defaultHandler` of packages middleware and chain: it
delegates the request to `http.DefaultServeMux.ServeHTTP(w, r)`, an external
side effect. -/
def defaultHandler : Handler := fun _ r => ⟨[Event.serveDefault r], none⟩

/-- The `middleware.Middleware` interface: `Inbound` transforms the context
(and may write to the ResponseWriter), `Outbound` performs side effects only
and returns nothing. -/
structure Middleware where
  inbound : Ctx → Req → Ctx × List Event
  outbound : Ctx → Req → List Event

/-- A `middleware.Chain`: an ordered collection of middlewares. -/
abbrev Chain := List Middleware

/-- The key `reachedKey` of package middleware, under which the inbound pass
records how far it reached when a middleware cancels the context. -/
def reachedKey : String := "__middleware_reached"

/-- The loop of `middleware.Chain.Inbound`, with the running index `i` of the
`for i, mw = range c` loop made explicit: run each middleware's Inbound in
order; when a call returns a canceled context, stop and return that context
with the current index recorded under `reachedKey`. -/
def inboundFrom (r : Req) : List Middleware → Nat → Ctx → Ctx × List Event
  | [], _, ctx => (ctx, [])
  | mw :: rest, i, ctx =>
    let p := mw.inbound ctx r
    if canceled p.1 then
      (Ctx.withValue p.1 reachedKey (Val.nat i), p.2)
    else
      let q := inboundFrom r rest (i + 1) p.1
      (q.1, p.2 ++ q.2)

/-- Method `middleware.Chain.Inbound`. -/
def Chain.Inbound (c : Chain) (ctx : Ctx) (r : Req) : Ctx × List Event :=
  inboundFrom r c 0 ctx

/-- The loop `for i := start; i >= 0; i--` of `middleware.Chain.Outbound`,
with `n = start + 1` the number of stages left to unwind: run `c[i].Outbound`
for `i = n-1, n-2, ..., 0`; indexing the slice out of range is a runtime
panic. -/
def unwind (ms : List Middleware) (ctx : Ctx) (r : Req) : Nat → Except Fault (List Event)
  | 0 => Except.ok []
  | n + 1 =>
    match ms[n]? with
    | some mw =>
      match unwind ms ctx r n with
      | Except.ok evs => Except.ok (mw.outbound ctx r ++ evs)
      | Except.error f => Except.error f
    | none => Except.error Fault.crash

/-- Method `middleware.Chain.Outbound`: start from `len(c) - 1`, except that
when the context is canceled and carries a value under `reachedKey`, start
from that recorded index instead; a non-int value there fails the `.(int)`
type assertion (runtime panic). -/
def Chain.Outbound (c : Chain) (ctx : Ctx) (r : Req) : Except Fault (List Event) :=
  if canceled ctx then
    match Ctx.value ctx reachedKey with
    | some (Val.nat i) => unwind c ctx r (i + 1)
    | some _ => Except.error Fault.crash
    | none => unwind c ctx r c.length
  else unwind c ctx r c.length

/-- Method `middleware.Chain.Then`: a nil endpoint handler falls back to
`defaultHandler`; the produced handler runs `c.Inbound`, then the endpoint
handler on the resulting context (unconditionally: the source has no
cancellation check between the two calls), then `c.Outbound` on that same
context.  The three statements run in sequence, so a panic in an earlier one
propagates and the later ones never run. -/
def Chain.Then (c : Chain) (h : Option Handler) : Handler :=
  fun ctx r =>
    let hh : Handler := match h with | none => defaultHandler | some g => g
    let p := Chain.Inbound c ctx r
    let o := hh p.1 r
    match o.fault with
    | some f => ⟨p.2 ++ o.events, some f⟩
    | none =>
      match Chain.Outbound c p.1 r with
      | Except.ok evs => ⟨p.2 ++ o.events ++ evs, none⟩
      | Except.error f => ⟨p.2 ++ o.events, some f⟩

/-- A `chain.Transformer`: context in, context out, may write to the
ResponseWriter. -/
def Transformer := Ctx → Req → Ctx × List Event

/-- The loop of `chain.Chain.Apply`: run the transformers in order, breaking
out as soon as one returns a context whose `Err()` is `context.Canceled`. -/
def applyLoop (r : Req) : List Transformer → Ctx → Ctx × List Event
  | [], ctx => (ctx, [])
  | t :: rest, ctx =>
    let p := t ctx r
    if canceled p.1 then p
    else
      let q := applyLoop r rest p.1
      (q.1, p.2 ++ q.2)

/-- A `chain.Chain`: an ordered collection of transformers. -/
abbrev TChain := List Transformer

/-- Method `chain.Chain.Apply`: a nil base context is replaced by
`context.Background()` before the transformer loop runs. -/
def TChain.Apply (ch : TChain) (base : Option Ctx) (r : Req) : Ctx × List Event :=
  applyLoop r ch (base.getD Ctx.background)

/-- Method `chain.Chain.Then`: a nil handler falls back to `defaultHandler`;
the produced handler applies the chain and calls the endpoint handler only if
the resulting context has not been canceled. -/
def TChain.Then (ch : TChain) (h : Option Handler) : Option Ctx → Req → Outcome :=
  fun base r =>
    let hh : Handler := match h with | none => defaultHandler | some g => g
    let p := TChain.Apply ch base r
    if canceled p.1 then ⟨p.2, none⟩
    else
      let o := hh p.1 r
      ⟨p.2 ++ o.events, o.fault⟩

/-- An instrumented middleware carrying its chain index `i`: its Inbound
applies an arbitrary context transformation `t` and records that it ran, its
Outbound records that it ran.  This mirrors the tag middlewares of the
package tests and lets which stages ran in which order be read off the event
list. -/
def probe (i : Nat) (t : Ctx → Ctx) : Middleware :=
  ⟨fun ctx _ => (t ctx, [Event.inbRan i]), fun _ _ => [Event.outRan i]⟩

/-- A chain of `n` instrumented middlewares with arbitrary per-stage context
transformations `f`. -/
def probeChain (n : Nat) (f : Nat → Ctx → Ctx) : Chain :=
  (List.range n).map (fun i => probe i (f i))

/-- The working context just before stage `i` of a probe chain runs (so
`ctxSeq f c0 0 = c0`, and stage `i`'s Inbound returns `ctxSeq f c0 (i+1)`). -/
def ctxSeq (f : Nat → Ctx → Ctx) (c0 : Ctx) : Nat → Ctx
  | 0 => c0
  | i + 1 => f i (ctxSeq f c0 i)

/-- An instrumented endpoint handler recording its invocation. -/
def probeHandler : Handler := fun _ _ => ⟨[Event.handlerRan], none⟩

/-- An endpoint handler that panics. -/
def faultingHandler : Handler := fun _ _ => ⟨[], some Fault.crash⟩

/-- A per-stage transformation cancelling the context at stage 1 and leaving
it alone elsewhere. -/
def cancelAt1 : Nat → Ctx → Ctx :=
  fun i ctx => if i = 1 then ⟨ctx.vals, some GoErr.canceled⟩ else ctx

/-- A per-stage transformation that never touches the context. -/
def keepCtx : Nat → Ctx → Ctx := fun _ ctx => ctx

/-- A per-stage transformation marking the deadline exceeded at stage 0. -/
def deadlineAt0 : Nat → Ctx → Ctx :=
  fun i ctx => if i = 0 then ⟨ctx.vals, some GoErr.deadlineExceeded⟩ else ctx

/-- A single instrumented middleware whose Inbound cancels the context. -/
def cancelingStage : Middleware :=
  probe 0 (fun ctx => ⟨ctx.vals, some GoErr.canceled⟩)

/-- A context that is canceled and already carries a high-water-mark value
(as the inbound pass of an enclosing chain would leave it). -/
def poisonCtx : Ctx := ⟨[(reachedKey, Val.nat 0)], some GoErr.canceled⟩

/-- A canceled context carrying no bindings at all. -/
def canceledCtx : Ctx := ⟨[], some GoErr.canceled⟩

/-- One dispatcher invocation of a composed handler, with the server state
(the chain and endpoint captured by the closure `Chain.Then` builds) threaded
explicitly: the closure body of `Chain.Then` reads `c` and `h` and never
reassigns them, so the state passes through unchanged. -/
def serveStep (st : Chain × Option Handler) (x : Ctx × Req) :
    (Chain × Option Handler) × Outcome :=
  (st, Chain.Then st.1 st.2 x.1 x.2)

/-- Sequential dispatch of several requests through the same composed
handler, accumulating each request's outcome and threading the server
state. -/
def serveFold (st : Chain × Option Handler) :
    List (Ctx × Req) → (Chain × Option Handler) × List Outcome
  | [] => (st, [])
  | x :: rest =>
    let p := serveStep st x
    let q := serveFold p.1 rest
    (q.1, p.2 :: q.2)

/-! Basic facts about the context model. -/

lemma ctxSeq_succ (f : Nat → Ctx → Ctx) (c0 : Ctx) (i : Nat) :
    ctxSeq f c0 (i + 1) = f i (ctxSeq f c0 i) := rfl

lemma canceled_withValue (c : Ctx) (k : String) (v : Val) :
    canceled (c.withValue k v) = canceled c := rfl

lemma value_withValue_self (c : Ctx) (k : String) (v : Val) :
    (c.withValue k v).value k = some v := by
  simp [Ctx.withValue, Ctx.value, lookupVal]

lemma probeChain_length (n : Nat) (f : Nat → Ctx → Ctx) :
    (probeChain n f).length = n := by
  simp [probeChain]

lemma probe_inbound (i : Nat) (t : Ctx → Ctx) (ctx : Ctx) (r : Req) :
    (probe i t).inbound ctx r = (t ctx, [Event.inbRan i]) := rfl

lemma probe_outbound (i : Nat) (t : Ctx → Ctx) (ctx : Ctx) (r : Req) :
    (probe i t).outbound ctx r = [Event.outRan i] := rfl

/-! Behaviour of the inbound loop on an instrumented window of stages
`s, s+1, ..., s+m-1`, starting from the working context `ctxSeq f c0 s`. -/

lemma inboundFrom_probes_ok (f : Nat → Ctx → Ctx) (c0 : Ctx) (r : Req) :
    ∀ m s, (∀ j, s ≤ j → j < s + m → canceled (ctxSeq f c0 (j + 1)) = false) →
      inboundFrom r ((List.range' s m).map (fun i => probe i (f i))) s (ctxSeq f c0 s)
        = (ctxSeq f c0 (s + m), (List.range' s m).map Event.inbRan) := by
  intro m
  induction m with
  | zero =>
    intro s _
    simp [inboundFrom]
  | succ m ih =>
    intro s h
    have hs : canceled (ctxSeq f c0 (s + 1)) = false :=
      h s (Nat.le_refl s) (by omega)
    have step := ih (s + 1) (fun j hj1 hj2 => h j (by omega) (by omega))
    rw [List.range'_succ, List.map_cons]
    simp only [inboundFrom, probe_inbound, ← ctxSeq_succ, hs]
    rw [step]
    have hadd : s + 1 + m = s + (m + 1) := by omega
    simp [hadd]

lemma inboundFrom_probes_cancel (f : Nat → Ctx → Ctx) (c0 : Ctx) (r : Req) (k : Nat)
    (hc : canceled (ctxSeq f c0 (k + 1)) = true) :
    ∀ m s, s ≤ k → k < s + m →
      (∀ j, s ≤ j → j < k → canceled (ctxSeq f c0 (j + 1)) = false) →
      inboundFrom r ((List.range' s m).map (fun i => probe i (f i))) s (ctxSeq f c0 s)
        = ((ctxSeq f c0 (k + 1)).withValue reachedKey (Val.nat k),
           (List.range' s (k + 1 - s)).map Event.inbRan) := by
  intro m
  induction m with
  | zero =>
    intro s h1 h2 _
    exact absurd h2 (by omega)
  | succ m ih =>
    intro s h1 h2 h3
    rw [List.range'_succ, List.map_cons]
    by_cases hk : k = s
    · subst hk
      simp only [inboundFrom, probe_inbound, ← ctxSeq_succ, hc]
      have hone : k + 1 - k = 1 := by omega
      simp [hone, List.range'_one]
    · have hsk : s < k := by omega
      have hs : canceled (ctxSeq f c0 (s + 1)) = false :=
        h3 s (Nat.le_refl s) (by omega)
      simp only [inboundFrom, probe_inbound, ← ctxSeq_succ, hs]
      rw [ih (s + 1) (by omega) (by omega) (fun j hj1 hj2 => h3 j (by omega) hj2)]
      have e1 : k + 1 - s = (k - s) + 1 := by omega
      have e2 : k + 1 - (s + 1) = k - s := by omega
      rw [e2, e1, List.range'_succ, List.map_cons]
      simp

/-! Behaviour of the outbound loop on an instrumented chain. -/

lemma unwind_probes (n : Nat) (f : Nat → Ctx → Ctx) (ctx : Ctx) (r : Req) :
    ∀ m, m ≤ n →
      unwind (probeChain n f) ctx r m
        = Except.ok (((List.range m).reverse).map Event.outRan) := by
  intro m
  induction m with
  | zero =>
    intro _
    simp [unwind]
  | succ m ih =>
    intro h
    have hget : (probeChain n f)[m]? = some (probe m (f m)) := by
      simp [probeChain, List.getElem?_map, List.getElem?_range (show m < n by omega)]
    simp only [unwind, hget, ih (by omega), probe_outbound]
    simp [List.range_succ]

/-! Whole-pass behaviour on instrumented chains. -/

lemma Inbound_probes_no_cancel (n : Nat) (f : Nat → Ctx → Ctx) (c0 : Ctx) (r : Req)
    (h : ∀ j, j < n → canceled (ctxSeq f c0 (j + 1)) = false) :
    Chain.Inbound (probeChain n f) c0 r
      = (ctxSeq f c0 n, (List.range n).map Event.inbRan) := by
  have hw := inboundFrom_probes_ok f c0 r n 0 (fun j hj1 hj2 => h j (by omega))
  simpa [Chain.Inbound, probeChain, List.range_eq_range', ctxSeq] using hw

lemma Outbound_probes_all (n : Nat) (f : Nat → Ctx → Ctx) (ctx : Ctx) (r : Req)
    (hnc : canceled ctx = false) :
    Chain.Outbound (probeChain n f) ctx r
      = Except.ok (((List.range n).reverse).map Event.outRan) := by
  have hu := unwind_probes n f ctx r n (Nat.le_refl n)
  simp [Chain.Outbound, hnc, probeChain_length, hu]

lemma Then_probes_no_cancel (n : Nat) (f : Nat → Ctx → Ctx) (c0 : Ctx) (r : Req)
    (h0 : 0 < n)
    (h : ∀ j, j < n → canceled (ctxSeq f c0 (j + 1)) = false) :
    Chain.Then (probeChain n f) (some probeHandler) c0 r
      = ⟨(List.range n).map Event.inbRan ++ Event.handlerRan ::
          ((List.range n).reverse).map Event.outRan, none⟩ := by
  obtain ⟨m, rfl⟩ : ∃ m, n = m + 1 := ⟨n - 1, by omega⟩
  have hinb := Inbound_probes_no_cancel (m + 1) f c0 r h
  have hnc : canceled (ctxSeq f c0 (m + 1)) = false := h m (by omega)
  have hout := Outbound_probes_all (m + 1) f (ctxSeq f c0 (m + 1)) r hnc
  simp [Chain.Then, hinb, hout, probeHandler]

/-! Claim theorems. -/

/-- C1 (code behaviour at the failing input): `middleware.Chain.Then` calls
the endpoint handler unconditionally — the source has no cancellation check
between `c.Inbound` and `h.Serve` — so with a single stage whose inbound
cancels the context, the inbound pass returns a canceled Context and the
endpoint handler still runs, contradicting the claim (and the explicit
`ctx.Err() != context.Canceled` guard of `chain.Chain.Then`). -/
theorem canceled_inbound_still_runs_handler :
    canceled (Chain.Inbound [cancelingStage] Ctx.background 0).1 = true
    ∧ (Chain.Then [cancelingStage] (some probeHandler) Ctx.background 0).events
        = [Event.inbRan 0, Event.handlerRan, Event.outRan 0]
    ∧ Event.handlerRan ∈
        (Chain.Then [cancelingStage] (some probeHandler) Ctx.background 0).events := by
  decide

/-- C2: in a chain of `n` stages where the stage at index `k` is the first
whose inbound returns a canceled Context, the inbound pass runs the inbound
of exactly stages `0..k` in declared order and records `k` as the high-water
mark, and the outbound pass then runs the outbound of exactly stages
`k, k-1, ..., 0` in that order; stages beyond `k` appear in neither trace,
and no outbound runs for a stage whose inbound did not run. -/
theorem inbound_cancel_records_and_unwinds (n k : Nat) (f : Nat → Ctx → Ctx)
    (c0 : Ctx) (r : Req)
    (hk : k < n)
    (hc : canceled (ctxSeq f c0 (k + 1)) = true)
    (hfirst : ∀ j, j < k → canceled (ctxSeq f c0 (j + 1)) = false) :
    Chain.Inbound (probeChain n f) c0 r
      = ((ctxSeq f c0 (k + 1)).withValue reachedKey (Val.nat k),
         (List.range (k + 1)).map Event.inbRan)
    ∧ ((Chain.Inbound (probeChain n f) c0 r).1).value reachedKey
        = some (Val.nat k)
    ∧ Chain.Outbound (probeChain n f) (Chain.Inbound (probeChain n f) c0 r).1 r
      = Except.ok (((List.range (k + 1)).reverse).map Event.outRan) := by
  have hinb : Chain.Inbound (probeChain n f) c0 r
      = ((ctxSeq f c0 (k + 1)).withValue reachedKey (Val.nat k),
         (List.range (k + 1)).map Event.inbRan) := by
    have hw := inboundFrom_probes_cancel f c0 r k hc n 0 (by omega) (by omega)
      (fun j hj1 hj2 => hfirst j hj2)
    simpa [Chain.Inbound, probeChain, List.range_eq_range', ctxSeq] using hw
  refine ⟨hinb, ?_, ?_⟩
  · rw [hinb]
    exact value_withValue_self _ _ _
  · rw [hinb]
    have hcv : canceled ((ctxSeq f c0 (k + 1)).withValue reachedKey (Val.nat k))
        = true := by
      rw [canceled_withValue]
      exact hc
    have hvv := value_withValue_self (ctxSeq f c0 (k + 1)) reachedKey (Val.nat k)
    have hu := unwind_probes n f
      ((ctxSeq f c0 (k + 1)).withValue reachedKey (Val.nat k)) r (k + 1) (by omega)
    simp [Chain.Outbound, hcv, hvv, hu]

/-- C2 witness: three stages, the stage at index 1 cancels. -/
theorem inbound_cancel_records_and_unwinds_witness :
    (1 < 3 ∧ canceled (ctxSeq cancelAt1 Ctx.background 2) = true)
    ∧ (Chain.Inbound (probeChain 3 cancelAt1) Ctx.background 0
        = ((ctxSeq cancelAt1 Ctx.background 2).withValue reachedKey (Val.nat 1),
           (List.range 2).map Event.inbRan)
      ∧ ((Chain.Inbound (probeChain 3 cancelAt1) Ctx.background 0).1).value reachedKey
          = some (Val.nat 1)
      ∧ Chain.Outbound (probeChain 3 cancelAt1)
          (Chain.Inbound (probeChain 3 cancelAt1) Ctx.background 0).1 0
        = Except.ok (((List.range 2).reverse).map Event.outRan)) :=
  ⟨⟨by decide, by decide⟩,
   inbound_cancel_records_and_unwinds 3 1 cancelAt1 Ctx.background 0
     (by decide) (by decide) (by decide)⟩

/-- C3: for every non-empty chain in which no stage's inbound returns a
canceled Context, the handler built by `Chain.Then` produces exactly the
trace: inbound of stages `0..n-1` in declared order, then the endpoint
handler once, then outbound of stages `n-1..0` in exactly reversed order. -/
theorem no_cancel_runs_all_in_order (n : Nat) (f : Nat → Ctx → Ctx) (c0 : Ctx)
    (r : Req) (h0 : 0 < n)
    (h : ∀ j, j < n → canceled (ctxSeq f c0 (j + 1)) = false) :
    Chain.Then (probeChain n f) (some probeHandler) c0 r
      = ⟨(List.range n).map Event.inbRan ++ Event.handlerRan ::
          ((List.range n).reverse).map Event.outRan, none⟩ :=
  Then_probes_no_cancel n f c0 r h0 h

/-- C3 witness: three stages, none cancels. -/
theorem no_cancel_runs_all_in_order_witness :
    (0 < 3 ∧ (∀ j, j < 3 → canceled (ctxSeq keepCtx Ctx.background (j + 1)) = false))
    ∧ Chain.Then (probeChain 3 keepCtx) (some probeHandler) Ctx.background 0
        = ⟨(List.range 3).map Event.inbRan ++ Event.handlerRan ::
            ((List.range 3).reverse).map Event.outRan, none⟩ :=
  ⟨⟨by decide, by decide⟩,
   no_cancel_runs_all_in_order 3 keepCtx Ctx.background 0 (by decide) (by decide)⟩

/-- C4 (amended): when the terminal handler raises a fault, `Chain.Then`
propagates the fault and the outbound pass does not run — the observed events
are exactly the inbound events followed by the handler's own events; there is
no finally-style construct in the source guaranteeing the unwind. -/
theorem handler_fault_skips_outbound (ms : Chain) (h : Handler) (ctx : Ctx) (r : Req)
    (hf : ((h (Chain.Inbound ms ctx r).1 r).fault).isSome = true) :
    (Chain.Then ms (some h) ctx r).fault = (h (Chain.Inbound ms ctx r).1 r).fault
    ∧ (Chain.Then ms (some h) ctx r).events
      = (Chain.Inbound ms ctx r).2 ++ (h (Chain.Inbound ms ctx r).1 r).events := by
  obtain ⟨flt, hflt⟩ := Option.isSome_iff_exists.mp hf
  constructor
  · simp [Chain.Then, hflt]
  · simp [Chain.Then, hflt]

/-- C4 witness: one stage, a panicking handler. -/
theorem handler_fault_skips_outbound_witness :
    ((faultingHandler (Chain.Inbound (probeChain 1 keepCtx) Ctx.background 0).1 0).fault).isSome
        = true
    ∧ ((Chain.Then (probeChain 1 keepCtx) (some faultingHandler) Ctx.background 0).fault
        = (faultingHandler (Chain.Inbound (probeChain 1 keepCtx) Ctx.background 0).1 0).fault
      ∧ (Chain.Then (probeChain 1 keepCtx) (some faultingHandler) Ctx.background 0).events
        = (Chain.Inbound (probeChain 1 keepCtx) Ctx.background 0).2
            ++ (faultingHandler (Chain.Inbound (probeChain 1 keepCtx) Ctx.background 0).1 0).events) :=
  ⟨by decide,
   handler_fault_skips_outbound (probeChain 1 keepCtx) faultingHandler Ctx.background 0
     (by decide)⟩

/-- C4, counterexample to the claim as stated: with one stage and a handler
that panics, the stage's inbound runs but its outbound never does — the
outbound pass does not run when the terminal handler raises a fault. -/
theorem handler_fault_outbound_skipped_cex :
    (Chain.Then (probeChain 1 keepCtx) (some faultingHandler) Ctx.background 0).events
      = [Event.inbRan 0]
    ∧ Event.outRan 0 ∉
        (Chain.Then (probeChain 1 keepCtx) (some faultingHandler) Ctx.background 0).events
    ∧ (Chain.Then (probeChain 1 keepCtx) (some faultingHandler) Ctx.background 0).fault
      = some Fault.crash := by
  decide

/-- C5 (amended): for every initial Context that is not simultaneously
canceled and carrying a value under the high-water-mark key, composing the
empty chain with a handler via `Then` behaves identically to calling the
handler directly: the inbound pass returns the input Context unchanged with
no high-water mark recorded, and the outbound pass performs no calls. -/
theorem empty_chain_transparent (h : Handler) (ctx : Ctx) (r : Req)
    (hsafe : canceled ctx = true → ctx.value reachedKey = none) :
    Chain.Inbound ([] : Chain) ctx r = (ctx, [])
    ∧ Chain.Outbound ([] : Chain) ctx r = Except.ok []
    ∧ Chain.Then ([] : Chain) (some h) ctx r = h ctx r := by
  have hout : Chain.Outbound ([] : Chain) ctx r = Except.ok [] := by
    by_cases hc : canceled ctx = true
    · simp [Chain.Outbound, hc, hsafe hc, unwind]
    · have hc2 : canceled ctx = false := by
        cases hcc : canceled ctx
        · rfl
        · exact absurd hcc hc
      simp [Chain.Outbound, hc2, unwind]
  refine ⟨rfl, hout, ?_⟩
  cases hE : h ctx r with
  | mk evs flt =>
    cases flt with
    | none => simp [Chain.Then, Chain.Inbound, inboundFrom, hE, hout]
    | some fl => simp [Chain.Then, Chain.Inbound, inboundFrom, hE]

/-- C5 witness: the empty root context and an instrumented handler. -/
theorem empty_chain_transparent_witness :
    (canceled Ctx.background = true → Ctx.value Ctx.background reachedKey = none)
    ∧ (Chain.Inbound ([] : Chain) Ctx.background 0 = (Ctx.background, [])
      ∧ Chain.Outbound ([] : Chain) Ctx.background 0 = Except.ok []
      ∧ Chain.Then ([] : Chain) (some probeHandler) Ctx.background 0
          = probeHandler Ctx.background 0) :=
  ⟨by decide, empty_chain_transparent probeHandler Ctx.background 0 (by decide)⟩

/-- C5, counterexample to the unqualified claim: on a Context that is already
canceled and carries a high-water-mark value, the empty chain's outbound pass
indexes the empty stage slice (`for i := 0; i >= 0; i--` over an empty
slice) and panics, so the composed handler does not behave like the handler
called directly. -/
theorem empty_chain_transparent_cex :
    Chain.Then ([] : Chain) (some probeHandler) poisonCtx 0
      ≠ probeHandler poisonCtx 0 := by
  decide

/-- C6: composing any chain with a nil terminal handler via `Then` behaves
identically to composing it with the package default handler (which delegates
to the default route table), in both the middleware and the chain package;
the fallback itself raises no fault. -/
theorem nil_handler_falls_back_to_default (ms : Chain) (tc : TChain) (ctx : Ctx)
    (base : Option Ctx) (r : Req) :
    Chain.Then ms none ctx r = Chain.Then ms (some defaultHandler) ctx r
    ∧ TChain.Then tc none base r = TChain.Then tc (some defaultHandler) base r
    ∧ (defaultHandler ctx r).fault = none :=
  ⟨rfl, rfl, rfl⟩

/-- C7: two invocations of the handler produced by `Chain.Then`, with
independently constructed initial Contexts, are independent and
non-interfering: the server state (the chain and endpoint captured by the
closure) comes back unchanged, each outcome is a function of that request's
own Context and request metadata alone, and the second invocation's outcome
is exactly what it would be as the only invocation. -/
theorem invocations_independent (ms : Chain) (h : Option Handler) (x y : Ctx × Req) :
    serveFold (ms, h) [x, y]
      = ((ms, h), [Chain.Then ms h x.1 x.2, Chain.Then ms h y.1 y.2])
    ∧ (serveFold (ms, h) [x, y]).2[1]? = (serveFold (ms, h) [y]).2[0]? :=
  ⟨rfl, rfl⟩

/-- C8: when the dispatcher supplies no initial Context (nil), the pipeline
substitutes the empty root context (`context.Background()`) and proceeds
exactly as if that context had been supplied, both through `Apply` and
through the handler composed by `Then`. -/
theorem nil_base_defaults_to_background (tc : TChain) (h : Option Handler) (r : Req) :
    TChain.Apply tc none r = TChain.Apply tc (some Ctx.background) r
    ∧ TChain.Then tc h none r = TChain.Then tc h (some Ctx.background) r :=
  ⟨rfl, rfl⟩

/-- C9: a Context whose `Err()` is `DeadlineExceeded` rather than `Canceled`
is not treated as canceled (`canceled` tests for `context.Canceled` only):
the inbound pass runs every remaining stage and returns the stage-produced
context with no high-water mark recorded, the endpoint handler still runs,
and the outbound pass runs every stage. -/
theorem deadline_exceeded_not_canceled (n : Nat) (f : Nat → Ctx → Ctx)
    (c0 : Ctx) (r : Req) (h0 : 0 < n)
    (h : ∀ j, j < n → canceled (ctxSeq f c0 (j + 1)) = false) :
    Chain.Inbound (probeChain n f) c0 r
      = (ctxSeq f c0 n, (List.range n).map Event.inbRan)
    ∧ Chain.Then (probeChain n f) (some probeHandler) c0 r
      = ⟨(List.range n).map Event.inbRan ++ Event.handlerRan ::
          ((List.range n).reverse).map Event.outRan, none⟩ :=
  ⟨Inbound_probes_no_cancel n f c0 r h, Then_probes_no_cancel n f c0 r h0 h⟩

/-- C9 witness: stage 0 marks the deadline exceeded; the pipeline still runs
everything. -/
theorem deadline_exceeded_not_canceled_witness :
    (ctxSeq deadlineAt0 Ctx.background 1).err = some GoErr.deadlineExceeded
    ∧ (Chain.Inbound (probeChain 2 deadlineAt0) Ctx.background 0
        = (ctxSeq deadlineAt0 Ctx.background 2, (List.range 2).map Event.inbRan)
      ∧ Chain.Then (probeChain 2 deadlineAt0) (some probeHandler) Ctx.background 0
        = ⟨(List.range 2).map Event.inbRan ++ Event.handlerRan ::
            ((List.range 2).reverse).map Event.outRan, none⟩) :=
  ⟨by decide,
   deadline_exceeded_not_canceled 2 deadlineAt0 Ctx.background 0 (by decide) (by decide)⟩

/-- C10: `Chain.Outbound` invoked with a canceled Context that carries no
value under the high-water-mark key runs the outbound of every stage in the
chain, from the last index down to 0. -/
theorem outbound_canceled_without_mark (n : Nat) (f : Nat → Ctx → Ctx)
    (ctx : Ctx) (r : Req)
    (hc : canceled ctx = true)
    (hv : ctx.value reachedKey = none) :
    Chain.Outbound (probeChain n f) ctx r
      = Except.ok (((List.range n).reverse).map Event.outRan) := by
  have hu := unwind_probes n f ctx r n (Nat.le_refl n)
  simp [Chain.Outbound, hc, hv, probeChain_length, hu]

/-- C10 witness: two stages, a canceled context with no recorded mark. -/
theorem outbound_canceled_without_mark_witness :
    (canceled canceledCtx = true ∧ Ctx.value canceledCtx reachedKey = none)
    ∧ Chain.Outbound (probeChain 2 keepCtx) canceledCtx 0
        = Except.ok (((List.range 2).reverse).map Event.outRan) :=
  ⟨⟨by decide, by decide⟩,
   outbound_canceled_without_mark 2 keepCtx canceledCtx 0 (by decide) (by decide)⟩

end Contextual
